import Mathlib

/-!
Verification of the declarator synthesis and rendering core (cdecl.rs) and the
function IR / signature loading logic (ir/function.rs) of a C binding
generator.  Pure Rust functions are embedded as Lean functions; the output
stream and the handful of externally-defined helper modules (writer, config,
rename, reserved, primitive tables) are modelled from the specification, as
noted on each such definition.
-/

set_option maxHeartbeats 1000000

namespace Cbindgen

/-- Output language (config.rs, external to the sources; modelled from the
spec: `language` is one of C, C++ and a Cython-compatible dialect). -/
inductive Language where
  | C
  | Cxx
  | Cython
deriving DecidableEq

/-- Argument-list layout (config.rs, external; modelled from the spec:
Horizontal, Vertical or Auto). -/
inductive Layout where
  | Horizontal
  | Vertical
  | Auto
deriving DecidableEq

/-- Modelled from the spec: the declaration-type classification tag
(struct/union/enum/typedef) attached to a named type;
declarationtyperesolver.rs is external to the sources. -/
inductive DeclarationType where
  | Struct
  | Union
  | Enum
  | Typedef
deriving DecidableEq

/-- Modelled from the spec: the keyword text of a classification tag. -/
def DeclarationType.to_str : DeclarationType → String
  | .Struct => "struct"
  | .Union => "union"
  | .Enum => "enum"
  | .Typedef => "typedef"

/-- Primitive types (ir/primitive, external).  Modelled from the spec:
a named primitive, plus the dedicated variadic-list primitive used by the
signature loader. -/
inductive PrimitiveType where
  | VaList
  | Named (name : String)
deriving DecidableEq

/-- Modelled from the spec: the C spelling of a primitive (the primitive
repr table lives outside the sources); the variadic-list primitive prints
as va_list and a named primitive prints its name. -/
def PrimitiveType.to_repr_c : PrimitiveType → String
  | .VaList => "va_list"
  | .Named n => n

mutual
/-- Embedding of the Rust enum Type (ir/ty.rs, whose shape is fixed by the
spec data model and by the exhaustive match in CDecl::build_type):
Primitive, Path (export name, generic arguments, optional classification),
Ptr, Array (length-expression text) and FuncPtr. -/
inductive Ty where
  | Primitive (prim : PrimitiveType)
  | Path (export_name : String) (generics : List GenericArgument)
      (ctype : Option DeclarationType)
  | Ptr (ty : Ty) (is_const : Bool) (is_nullable : Bool) (is_ref : Bool)
  | Array (ty : Ty) (len : String)
  | FuncPtr (ret : Ty) (args : List (Option String × Ty)) (never_return : Bool)

/-- A generic argument: a nested type or literal constant-expression text. -/
inductive GenericArgument where
  | TypeArg (ty : Ty)
  | ConstArg (expr : String)
end

/-- Modelled from the spec: the naming rule consumed by the rename pass
(rename.rs is external).  None applies no rule; any other rule rewrites an
identifier. -/
inductive RenameRule where
  | none
  | rule (f : String → String)

/-- RenameRule::not_none from rename.rs (external), modelled from the spec:
the applicable rule, when there is one. -/
def RenameRule.not_none : RenameRule → Option RenameRule
  | .none => Option.none
  | .rule f => some (.rule f)

/-- RenameRule::apply restricted to function-argument identifiers. -/
def RenameRule.applyRule : RenameRule → String → String
  | .none, s => s
  | .rule f, s => f s

/-- Pointer attribute configuration (config.rs, external; fields as read by
cdecl.rs). -/
structure PtrConfig where
  non_null_attribute : Option String
  nullable_attribute : Option String

/-- Function configuration (config.rs, external; fields as read by the
sources). -/
structure FnConfig where
  args : Layout
  rename_args : RenameRule
  no_return : Option String

/-- Read-only configuration, modelled from the spec with exactly the fields
the two source files read.  tyRename stands for the external recursive
renaming pass Type::rename_for_config (type.rs is external). -/
structure Config where
  language : Language
  function : FnConfig
  pointer : PtrConfig
  line_length : Nat
  tyRename : Ty → Ty

/-- Modelled from the spec: the output stream (writer.rs is external): the
committed text plus the stack of indentation columns. -/
structure SW where
  out : String
  spaces : List Nat
deriving DecidableEq

/-- Modelled from the spec: append a token to the stream. -/
def SW.write (sw : SW) (s : String) : SW := { sw with out := sw.out ++ s }

/-- The text after the last emitted newline. -/
def SW.lastLine (sw : SW) : String := (sw.out.splitOn "\n").getLastD ""

/-- Modelled from the spec: the computed alignment column for vertical
layout is the current line length. -/
def SW.lineLengthForAlign (sw : SW) : Nat := sw.lastLine.length

/-- Modelled from the spec: push an explicit indentation column. -/
def SW.pushSetSpaces (sw : SW) (n : Nat) : SW := { sw with spaces := n :: sw.spaces }

/-- Modelled from the spec: pop the innermost indentation column. -/
def SW.popTab (sw : SW) : SW := { sw with spaces := sw.spaces.tail }

/-- Modelled from the spec: an explicit newline followed by the current
indentation. -/
def SW.newLine (sw : SW) : SW :=
  sw.write ("\n" ++ String.mk (List.replicate (sw.spaces.headD 0) ' '))

/-- The width of the widest line on the stream, used by the speculative
probe of Auto layout (modelled from the spec: the probe measures the
rendering against a configured maximum width). -/
def SW.maxLineLen (sw : SW) : Nat :=
  ((sw.out.splitOn "\n").map String.length).foldl Nat.max 0

mutual
/-- Embedding of the Rust enum CDeclarator (cdecl.rs): one declarator
operation. -/
inductive CDeclarator where
  | Ptr (is_const : Bool) (is_nullable : Bool) (is_ref : Bool)
  | Array (len : String)
  | Func (args : List (Option String × CDecl)) (layout : Layout) (never_return : Bool)

/-- Embedding of the Rust struct CDecl (cdecl.rs): one base type specifier
plus the ordered declarator list (index 0 is the first-pushed, outermost
operation, as in the Rust Vec). -/
inductive CDecl where
  | mk (type_qualifers : String) (type_name : String)
      (type_generic_args : List GenericArgument) (declarators : List CDeclarator)
      (type_ctype : Option DeclarationType) (deprecated : Option String)
end

/-- CDeclarator::is_ptr from cdecl.rs: matches Ptr and Func. -/
def CDeclarator.is_ptr : CDeclarator → Bool
  | .Ptr _ _ _ => true
  | .Func _ _ _ => true
  | .Array _ => false

def CDecl.type_qualifers : CDecl → String
  | .mk q _ _ _ _ _ => q

def CDecl.type_name : CDecl → String
  | .mk _ n _ _ _ _ => n

def CDecl.type_generic_args : CDecl → List GenericArgument
  | .mk _ _ g _ _ _ => g

def CDecl.declarators : CDecl → List CDeclarator
  | .mk _ _ _ d _ _ => d

def CDecl.type_ctype : CDecl → Option DeclarationType
  | .mk _ _ _ _ c _ => c

def CDecl.deprecated : CDecl → Option String
  | .mk _ _ _ _ _ dep => dep

/-- CDecl::new from cdecl.rs: the fresh empty CDecl. -/
def CDecl.new : CDecl := .mk "" "" [] [] Option.none Option.none

/-- Vec::push on the declarator list: append at the end. -/
def CDecl.pushDeclarator : CDecl → CDeclarator → CDecl
  | .mk q n g d c dep, d2 => .mk q n g (d ++ [d2]) c dep

def CDecl.setQualifer : CDecl → String → CDecl
  | .mk _ n g d c dep, q => .mk q n g d c dep

def CDecl.setName : CDecl → String → CDecl
  | .mk q _ g d c dep, n => .mk q n g d c dep

def CDecl.setGenericArgs : CDecl → List GenericArgument → CDecl
  | .mk q n _ d c dep, g => .mk q n g d c dep

def CDecl.setCtype : CDecl → Option DeclarationType → CDecl
  | .mk q n g d _ dep, c => .mk q n g d c dep

mutual
/-- Embedding of CDecl::build_type (cdecl.rs lines 109-188): push one
declarator per wrapper and set the base specifier at the Primitive/Path
leaf.  The internal assertions are modelled separately by
CDecl.buildTypeChecked; this is the behaviour on the assertion-passing
path. -/
def CDecl.buildType (c : CDecl) (t : Ty) (is_const : Bool) (cfg : Config) : CDecl :=
  match t with
  | .Path name generics ctype =>
    let c := if is_const then c.setQualifer "const" else c
    let c := c.setName name
    let c := c.setGenericArgs generics
    c.setCtype ctype
  | .Primitive p =>
    let c := if is_const then c.setQualifer "const" else c
    c.setName p.to_repr_c
  | .Ptr ty ptr_is_const is_nullable is_ref =>
    (c.pushDeclarator (.Ptr is_const is_nullable is_ref)).buildType ty ptr_is_const cfg
  | .Array ty len =>
    (c.pushDeclarator (.Array len)).buildType ty is_const cfg
  | .FuncPtr ret args never_return =>
    let cargs := CDecl.buildArgs args cfg
    (((c.pushDeclarator (.Ptr false true false)).pushDeclarator
        (.Func cargs cfg.function.args never_return))).buildType ret false cfg
termination_by sizeOf t * 2

/-- The argument conversion inside the FuncPtr arm of build_type: each
argument type is synthesized independently with CDecl::from_type. -/
def CDecl.buildArgs (args : List (Option String × Ty)) (cfg : Config) :
    List (Option String × CDecl) :=
  match args with
  | [] => []
  | (n, ty) :: rest => (n, CDecl.fromType ty cfg) :: CDecl.buildArgs rest cfg
termination_by sizeOf args * 2

/-- CDecl::from_type (cdecl.rs lines 59-63). -/
def CDecl.fromType (t : Ty) (cfg : Config) : CDecl :=
  CDecl.new.buildType t false cfg
termination_by sizeOf t * 2 + 1
end

mutual
/-- Assert-faithful variant of CDecl::build_type: every assert! of the Rust
source becomes an error (a Rust panic) when its condition fails. -/
def CDecl.buildTypeChecked (c : CDecl) (t : Ty) (is_const : Bool) (cfg : Config) :
    Except String CDecl :=
  match t with
  | .Path name generics ctype => do
    let c ←
      if is_const then
        if c.type_qualifers.isEmpty then pure (c.setQualifer "const")
        else Except.error "error generating cdecl"
      else pure c
    if c.type_name.isEmpty then
      if c.type_generic_args.isEmpty then
        pure (((c.setName name).setGenericArgs generics).setCtype ctype)
      else Except.error "error generating cdecl"
    else Except.error "error generating cdecl"
  | .Primitive p => do
    let c ←
      if is_const then
        if c.type_qualifers.isEmpty then pure (c.setQualifer "const")
        else Except.error "error generating cdecl"
      else pure c
    if c.type_name.isEmpty then pure (c.setName p.to_repr_c)
    else Except.error "error generating cdecl"
  | .Ptr ty ptr_is_const is_nullable is_ref =>
    (c.pushDeclarator (.Ptr is_const is_nullable is_ref)).buildTypeChecked ty ptr_is_const cfg
  | .Array ty len =>
    (c.pushDeclarator (.Array len)).buildTypeChecked ty is_const cfg
  | .FuncPtr ret args never_return => do
    let cargs ← CDecl.buildArgsChecked args cfg
    (((c.pushDeclarator (.Ptr false true false)).pushDeclarator
        (.Func cargs cfg.function.args never_return))).buildTypeChecked ret false cfg
termination_by sizeOf t * 2

/-- Assert-faithful variant of the FuncPtr argument conversion. -/
def CDecl.buildArgsChecked (args : List (Option String × Ty)) (cfg : Config) :
    Except String (List (Option String × CDecl)) :=
  match args with
  | [] => pure []
  | (n, ty) :: rest => do
    let c ← CDecl.fromTypeChecked ty cfg
    let cs ← CDecl.buildArgsChecked rest cfg
    pure ((n, c) :: cs)
termination_by sizeOf args * 2

/-- Assert-faithful variant of CDecl::from_type. -/
def CDecl.fromTypeChecked (t : Ty) (cfg : Config) : Except String CDecl :=
  CDecl.new.buildTypeChecked t false cfg
termination_by sizeOf t * 2 + 1
end

/-- Modelled from the spec: a qualified path (ir/path.rs is external),
carrying the exported name; name() and to_string() both print it. -/
structure Path where
  name : String
deriving DecidableEq

/-- Modelled from the spec: the annotation surface consumed by the signature
loader (AnnotationSet is external): the parsed rename-all rule, the raw
ptrs-as-arrays entry list, and deprecation text. -/
structure AnnotationSet where
  rename_all : Option RenameRule
  ptrs_as_arrays : Option (List String)
  deprecated : Option String

/-- Embedding of FunctionArgument (ir/function.rs lines 19-24). -/
structure FunctionArgument where
  name : Option String
  ty : Ty
  array_length : Option String

/-- Embedding of Function (ir/function.rs lines 26-39); the
conditional-compilation guard and documentation are modelled as opaque
payloads from the spec (their types are external). -/
structure Function where
  path : Path
  self_type_path : Option Path
  ret : Ty
  args : List FunctionArgument
  extern_decl : Bool
  cfg_guard : Option String
  annotations : AnnotationSet
  documentation : List String
  never_return : Bool

def CDecl.setDeprecated : CDecl → Option String → CDecl
  | .mk q n g d c _, dep => .mk q n g d c dep

/-- CDecl::from_func_arg (cdecl.rs lines 65-81): an argument with an array
length override must be a pointer, which is rebuilt as an Array of its
pointee; the unreachable! arm for any other shape is a Rust panic, modelled
as an error. -/
def CDecl.fromFuncArg (t : Ty) (array_length : Option String) (cfg : Config) :
    Except String CDecl :=
  match array_length with
  | Option.none => pure (CDecl.fromType t cfg)
  | some length =>
    match t with
    | .Ptr ty is_const _ _ =>
      pure (CDecl.new.buildType (.Array ty length) is_const cfg)
    | _ => Except.error "Should never have an array length for a non pointer type"

/-- The argument conversion loop of CDecl::build_func. -/
def buildFuncArgList (args : List FunctionArgument) (cfg : Config) :
    Except String (List (Option String × CDecl)) :=
  match args with
  | [] => pure []
  | a :: rest => do
    let c ← CDecl.fromFuncArg a.ty a.array_length cfg
    let cs ← buildFuncArgList rest cfg
    pure ((a.name, c) :: cs)

/-- CDecl::build_func (cdecl.rs lines 89-107): push one Func declarator
built from the argument list, copy the deprecation text, then recurse into
the return type. -/
def CDecl.buildFunc (c : CDecl) (f : Function) (layout : Layout) (cfg : Config) :
    Except String CDecl := do
  let args ← buildFuncArgList f.args cfg
  let c := c.pushDeclarator (.Func args layout f.never_return)
  let c := c.setDeprecated f.annotations.deprecated
  pure (c.buildType f.ret false cfg)

/-- CDecl::from_func (cdecl.rs lines 83-87). -/
def CDecl.fromFunc (f : Function) (layout : Layout) (cfg : Config) :
    Except String CDecl :=
  CDecl.new.buildFunc f layout cfg

mutual
/-- Modelled from the spec: the language backend's rendering of a nested
generic-argument type (language_backend is external; generic arguments
render as nested rendered types or literal constant-expression text). -/
def renderTypeText : Ty → String
  | .Primitive p => p.to_repr_c
  | .Path n gs _ =>
    n ++ (if gs.isEmpty then ""
          else "<" ++ String.intercalate ", " (renderGenericListText gs) ++ ">")
  | .Ptr ty _ _ is_ref => renderTypeText ty ++ (if is_ref then "&" else "*")
  | .Array ty len => renderTypeText ty ++ "[" ++ len ++ "]"
  | .FuncPtr ret args _ =>
    renderTypeText ret ++ "(*)(" ++ String.intercalate ", " (renderFnArgListText args) ++ ")"

/-- One generic argument: a rendered type or the literal expression text. -/
def renderGenericArgText : GenericArgument → String
  | .TypeArg ty => renderTypeText ty
  | .ConstArg e => e

def renderGenericListText : List GenericArgument → List String
  | [] => []
  | g :: gs => renderGenericArgText g :: renderGenericListText gs

def renderFnArgListText : List (Option String × Ty) → List String
  | [] => []
  | (_, t) :: rest => renderTypeText t :: renderFnArgListText rest
end

/-- One step of the left pass of CDecl::write (cdecl.rs lines 233-267):
a Ptr emits its star or ampersand, constness and nullability attribute; an
Array or Func emits an opening parenthesis exactly when the next-visited
declarator is a pointer in the sense of CDeclarator::is_ptr. -/
def leftStep (cfg : Config) (d : CDeclarator) (next_is_pointer : Bool) (sw : SW) : SW :=
  match d with
  | .Ptr is_const is_nullable is_ref =>
    let sw := sw.write (if is_ref then "&" else "*")
    let sw := if is_const then sw.write "const " else sw
    if cfg.language ≠ Language.Cython then
      if !is_nullable && !is_ref then
        match cfg.pointer.non_null_attribute with
        | some attr => sw.write (attr ++ " ")
        | Option.none => sw
      else if is_nullable then
        match cfg.pointer.nullable_attribute with
        | some attr => sw.write (attr ++ " ")
        | Option.none => sw
      else sw
    else sw
  | .Array _ => if next_is_pointer then sw.write "(" else sw
  | .Func _ _ _ => if next_is_pointer then sw.write "(" else sw

/-- The peeked next_is_pointer flag of the left pass. -/
def nextIsPtr : List CDeclarator → Bool
  | [] => false
  | d :: _ => d.is_ptr

/-- The left pass of CDecl::write over the reversed declarator list. -/
def leftPass (cfg : Config) : List CDeclarator → SW → SW
  | [], sw => sw
  | d :: rest, sw => leftPass cfg rest (leftStep cfg d (nextIsPtr rest) sw)

mutual
/-- Embedding of CDecl::write (cdecl.rs lines 190-371): specifier, left
declarator pass, identifier, right declarator pass. -/
def CDecl.write (c : CDecl) (sw : SW) (ident : Option String) (cfg : Config) : SW :=
  match c with
  | .mk q n g ds ct _ =>
    let sw := if q.isEmpty then sw else sw.write (q ++ " ")
    let sw :=
      if cfg.language ≠ Language.Cython then
        match ct with
        | some c2 => sw.write (c2.to_str ++ " ")
        | Option.none => sw
      else sw
    let sw := sw.write n
    let sw :=
      if g.isEmpty then sw
      else sw.write ("<" ++ String.intercalate ", " (renderGenericListText g) ++ ">")
    let sw := if ident.isSome then sw.write " " else sw
    let sw := leftPass cfg ds.reverse sw
    let sw :=
      match ident with
      | some i => sw.write i
      | Option.none => sw
    rightPass cfg ds false sw
termination_by sizeOf c * 8

/-- The right pass of CDecl::write (cdecl.rs lines 276-370): a pointer
leaves a pending open parenthesis which the next Array or Func closes
before its own suffix. -/
def rightPass (cfg : Config) (ds : List CDeclarator) (last_was_pointer : Bool) (sw : SW) : SW :=
  match ds with
  | [] => sw
  | .Ptr _ _ _ :: rest => rightPass cfg rest true sw
  | .Array len :: rest =>
    let sw := if last_was_pointer then sw.write ")" else sw
    rightPass cfg rest false (sw.write ("[" ++ len ++ "]"))
  | .Func args layout never_return :: rest =>
    let sw := if last_was_pointer then sw.write ")" else sw
    let sw := sw.write "("
    let sw := if args.isEmpty ∧ cfg.language = Language.C then sw.write "void" else sw
    let sw := writeFuncArguments layout args sw cfg
    let sw := sw.write ")"
    let sw :=
      if never_return ∧ cfg.language ≠ Language.Cython then
        match cfg.function.no_return with
        | some attr => sw.write (" " ++ attr)
        | Option.none => sw
      else sw
    rightPass cfg rest true sw
termination_by sizeOf ds * 8 + 6

/-- The layout dispatch for one argument list (cdecl.rs lines 347-358).
SourceWriter::try_write is modelled from the spec: Auto runs the horizontal
rendering speculatively, commits it when it stays within the configured
line_length, and otherwise discards it entirely and renders vertically from
the unchanged stream. -/
def writeFuncArguments (layout : Layout) (args : List (Option String × CDecl))
    (sw : SW) (cfg : Config) : SW :=
  match layout with
  | .Vertical => writeVertical args sw cfg
  | .Horizontal => writeHorizontal args sw cfg
  | .Auto =>
    let probe := writeHorizontal args sw cfg
    if probe.maxLineLen ≤ cfg.line_length then probe else writeVertical args sw cfg
termination_by sizeOf args * 8 + 5

/-- write_horizontal from the Func arm of CDecl::write. -/
def writeHorizontal (args : List (Option String × CDecl)) (sw : SW) (cfg : Config) : SW :=
  writeHorizontalFrom true args sw cfg
termination_by sizeOf args * 8 + 4

def writeHorizontalFrom (first : Bool) (args : List (Option String × CDecl))
    (sw : SW) (cfg : Config) : SW :=
  match args with
  | [] => sw
  | (n, t) :: rest =>
    let sw := if first then sw else sw.write ", "
    writeHorizontalFrom false rest (t.write sw n cfg) cfg
termination_by sizeOf args * 8 + 3

/-- write_vertical from the Func arm of CDecl::write: one argument per line
at the alignment column captured on entry. -/
def writeVertical (args : List (Option String × CDecl)) (sw : SW) (cfg : Config) : SW :=
  let align := sw.lineLengthForAlign
  let sw := sw.pushSetSpaces align
  let sw := writeVerticalFrom true args sw cfg
  sw.popTab
termination_by sizeOf args * 8 + 4

def writeVerticalFrom (first : Bool) (args : List (Option String × CDecl))
    (sw : SW) (cfg : Config) : SW :=
  match args with
  | [] => sw
  | (n, t) :: rest =>
    let sw := if first then sw else (sw.write ",").newLine
    writeVerticalFrom false rest (t.write sw n cfg) cfg
termination_by sizeOf args * 8 + 3
end

/-- write_func (cdecl.rs lines 374-382). -/
def write_func (sw : SW) (f : Function) (layout : Layout) (cfg : Config) :
    Except String SW := do
  let c ← CDecl.fromFunc f layout cfg
  pure (c.write sw (some f.path.name) cfg)

/-- write_field (cdecl.rs lines 384-392). -/
def write_field (sw : SW) (t : Ty) (ident : String) (cfg : Config) : SW :=
  (CDecl.fromType t cfg).write sw (some ident) cfg

/-- write_type (cdecl.rs lines 394-401). -/
def write_type (sw : SW) (t : Ty) (cfg : Config) : SW :=
  (CDecl.fromType t cfg).write sw Option.none cfg

/-- Drop the chunk p from the front of l, when it is there.  This models
matching one occurrence of a Rust str pattern at the start of a string. -/
def dropChunk : List Char → List Char → Option (List Char)
  | [], l => some l
  | _ :: _, [] => Option.none
  | p :: ps, c :: cs => if p = c then dropChunk ps cs else Option.none

theorem dropChunk_length (p l l2 : List Char) (h : dropChunk p l = some l2) :
    l2.length + p.length = l.length := by
  induction p generalizing l l2 with
  | nil =>
    simp [dropChunk] at h
    simp [h]
  | cons c cs ih =>
    match l with
    | [] => simp [dropChunk] at h
    | x :: xs =>
      simp [dropChunk] at h
      obtain ⟨hcx, h2⟩ := h
      have := ih xs l2 h2
      simp
      omega

/-- Rust str::trim_start_matches with a string pattern: repeatedly remove
the pattern from the front; the empty pattern removes nothing. -/
def trimChunks (p l : List Char) : List Char :=
  if hp : p = [] then l
  else
    match h : dropChunk p l with
    | some l2 =>
      have : l2.length < l.length := by
        have hlen := dropChunk_length p l l2 h
        have : 0 < p.length := by
          cases p with
          | nil => exact absurd rfl hp
          | cons a as => simp
        omega
      trimChunks p l2
    | Option.none => l
termination_by l.length

/-- str::trim_start_matches(pattern string) on Lean strings. -/
def trimStartMatchesStr (s p : String) : String :=
  String.mk (trimChunks p.toList s.toList)

/-- str::trim_start_matches(a single char), as used for the underscore
separator in Function::swift_name. -/
def trimStartMatchesChar (s : String) (c : Char) : String :=
  String.mk (s.toList.dropWhile (fun x => x = c))

/-- Rust str::starts_with on strings: p matches a prefix of s. -/
def startsWithStr (s p : String) : Bool :=
  (dropChunk p.toList s.toList).isSome

/-- The item_args block of Function::swift_name: a colon-terminated label
per argument name; the ? operator makes an unnamed argument abort with
None. -/
def swiftItemArgs : List FunctionArgument → Option (List String)
  | [] => some []
  | a :: rest => do
    let n ← a.name
    let items ← swiftItemArgs rest
    pure ((n ++ ":") :: items)

/-- Embedding of Function::swift_name (ir/function.rs lines 81-112). -/
def Function.swift_name (f : Function) (cfg : Config) : Option String :=
  if cfg.language = Language.Cython then Option.none
  else
    let pieces : Option (String × String) :=
      match f.self_type_path with
      | some tp =>
        let type_name := tp.name
        if ¬ startsWithStr f.path.name type_name then Option.none
        else some (type_name ++ ".", type_name)
      | Option.none => some ("", "")
    match pieces with
    | Option.none => some f.path.name
    | some (type_pre, type_name) =>
      let item_name := trimStartMatchesChar (trimStartMatchesStr f.path.name type_name) '_'
      match swiftItemArgs f.args with
      | Option.none => Option.none
      | some items =>
        some (type_pre ++ item_name ++ "(" ++ String.join items ++ ")")

/-- Modelled from the spec: the raw receiver of a method signature (syn is
an external crate).  colon_token says whether an explicit self type was
written; tyLoaded is the already-loaded override type (Type::load is
external and returns an optional type); reference and mutability mirror the
&self / &mut self flags. -/
structure Receiver where
  colon_token : Bool
  tyLoaded : Option Ty
  reference : Bool
  mutability : Bool

/-- The Self placeholder path, GenericPath::self_path(). -/
def selfPath : Ty := Ty.Path "Self" [] Option.none

/-- Embedding of gen_self_type (ir/function.rs lines 225-244). -/
def gen_self_type (receiver : Receiver) : Ty :=
  let self_ty := selfPath
  let self_ty := if receiver.colon_token then receiver.tyLoaded.getD self_ty else self_ty
  if receiver.reference = false then self_ty
  else
    Ty.Ptr self_ty (!receiver.mutability) false false

/-- The Receiver arm of SynFnArgHelpers::as_argument (ir/function.rs lines
280-284): name it self, with no array length. -/
def receiverArgument (receiver : Receiver) : FunctionArgument :=
  { name := some "self", ty := gen_self_type receiver, array_length := Option.none }

mutual
/-- Modelled from the spec: Type::replace_self_with (type.rs is external):
every self-referential placeholder is rewritten to the concrete receiver
path. -/
def replaceSelfWith (p : Path) : Ty → Ty
  | .Primitive q => .Primitive q
  | .Path n gs ct =>
    .Path (if n = "Self" then p.name else n) (replaceSelfWithGenerics p gs) ct
  | .Ptr ty c nl r => .Ptr (replaceSelfWith p ty) c nl r
  | .Array ty len => .Array (replaceSelfWith p ty) len
  | .FuncPtr ret args nr =>
    .FuncPtr (replaceSelfWith p ret) (replaceSelfWithArgs p args) nr

def replaceSelfWithGenerics (p : Path) : List GenericArgument → List GenericArgument
  | [] => []
  | .TypeArg ty :: gs => .TypeArg (replaceSelfWith p ty) :: replaceSelfWithGenerics p gs
  | .ConstArg e :: gs => .ConstArg e :: replaceSelfWithGenerics p gs

def replaceSelfWithArgs (p : Path) :
    List (Option String × Ty) → List (Option String × Ty)
  | [] => []
  | (n, t) :: rest => (n, replaceSelfWith p t) :: replaceSelfWithArgs p rest
end

/-- The self-substitution applied by Function::load to a freshly built
argument (ir/function.rs lines 61-66). -/
def FunctionArgument.replaceSelf (a : FunctionArgument) (p : Path) : FunctionArgument :=
  { a with ty := replaceSelfWith p a.ty }

/-- Modelled from the spec: reserved::escape (reserved.rs is external):
an argument literally named a reserved keyword is escaped to a
non-colliding spelling. -/
def reservedEscape (s : String) : String :=
  if s ∈ ["auto", "case", "char", "const", "default", "do", "double", "else",
          "enum", "extern", "float", "int", "long", "register", "return",
          "short", "signed", "sizeof", "static", "struct", "switch",
          "typedef", "union", "unsigned", "void", "volatile", "while",
          "bool", "class", "new", "delete", "this", "template"]
  then s ++ "_" else s

/-- The return-type rename at the top of Function::rename_for_config
(ir/function.rs line 156); the recursive type rename itself is the external
pass modelled by Config.tyRename. -/
def renameRet (f : Function) (cfg : Config) : Function :=
  { f with ret := cfg.tyRename f.ret }

/-- The argument-rename block of Function::rename_for_config
(ir/function.rs lines 159-177): when the effective rule (per-function
annotation overriding the global default) is not None, rebuild every
argument with the renamed name, the same type, and array_length cleared to
None. -/
def applyRenameRules (f : Function) (cfg : Config) : Function :=
  let rules := f.annotations.rename_all
  let rules := rules.getD cfg.function.rename_args
  match rules.not_none with
  | some r =>
    { f with args := f.args.map (fun arg =>
        { name := arg.name.map (fun n => r.applyRule n),
          ty := arg.ty,
          array_length := Option.none }) }
  | Option.none => f

/-- The keyword-escape and argument-type-rename loop of
Function::rename_for_config (ir/function.rs lines 181-186). -/
def escapeAndRenameArgTypes (f : Function) (cfg : Config) : Function :=
  { f with args := f.args.map (fun arg =>
      { arg with ty := cfg.tyRename arg.ty, name := arg.name.map reservedEscape }) }

/-- HashMap::insert semantics on an association list: the newest binding
for a key shadows the older ones. -/
def mapInsert (m : List (String × String)) (k v : String) : List (String × String) :=
  (k, v) :: m.filter (fun p => p.1 ≠ k)

/-- Rust str::split on a single separator character, over the character
list: every separator occurrence produces a field, and the empty string
yields one empty field. -/
def splitOnChar (c : Char) : List Char → List (List Char)
  | [] => [[]]
  | x :: xs =>
    let r := splitOnChar c xs
    if x = c then [] :: r
    else
      match r with
      | [] => [[x]]
      | y :: ys => (x :: y) :: ys

/-- An ASCII whitespace test for str::trim. -/
def isWhitespaceChar (c : Char) : Bool :=
  c = ' ' || c = '\t' || c = '\n' || c = '\r'

/-- Rust str::trim: drop whitespace from both ends. -/
def trimChars (l : List Char) : List Char :=
  ((l.dropWhile isWhitespaceChar).reverse.dropWhile isWhitespaceChar).reverse

/-- The trimmed semicolon-split pieces of one ptrs-as-arrays entry, the
parts vector of ir/function.rs lines 193-196: strip the first and last
characters, split on semicolons, trim each piece (defined for entries of at
least two characters, which the Rust byte-slice expression requires). -/
def entryParts (s : String) : List String :=
  (splitOnChar ';' ((s.toList.drop 1).dropLast)).map (fun l => String.mk (trimChars l))

/-- The parsing loop over ptrs-as-arrays entries (ir/function.rs lines
192-204), processed left to right, accumulating the name-to-length map and
the warned-about malformed parts lists.  An entry shorter than two
characters makes the Rust byte-range expression str_tuple[1..len - 1]
panic, modelled as an error. -/
def parsePtrsEntries (m : List (String × String)) (ws : List (List String)) :
    List String → Except String (List (String × String) × List (List String))
  | [] => Except.ok (m, ws)
  | s :: rest =>
    if s.length < 2 then Except.error "byte index out of bounds in ptrs-as-arrays entry"
    else
      let parts := entryParts s
      if parts.length = 2 then
        parsePtrsEntries (mapInsert m (parts.getD 0 "") (parts.getD 1 "")) ws rest
      else
        parsePtrsEntries m (ws ++ [parts]) rest

/-- The assignment loop of ir/function.rs lines 206-216: a pointer-typed
argument with a name receives the map lookup for that name as its array
length (None when the name is absent); any other argument is skipped. -/
def assignPtrLengths (f : Function) (m : List (String × String)) : Function :=
  { f with args := f.args.map (fun arg =>
      match arg.ty with
      | .Ptr _ _ _ _ =>
        match arg.name with
        | some n => { arg with array_length := List.lookup n m }
        | Option.none => arg
      | _ => arg) }

/-- The ptrs-as-arrays block of Function::rename_for_config (ir/function.rs
lines 190-217). -/
def ptrsAsArraysPhase (f : Function) : Except String (Function × List (List String)) :=
  match f.annotations.ptrs_as_arrays with
  | Option.none => Except.ok (f, [])
  | some tuples => do
    let (m, ws) ← parsePtrsEntries [] [] tuples
    Except.ok (assignPtrLengths f m, ws)

/-- Embedding of Function::rename_for_config (ir/function.rs lines
153-218), as the sequence of its four textual blocks; the warnings emitted
while parsing ptrs-as-arrays entries are returned alongside the renamed
function. -/
def Function.rename_for_config (f : Function) (cfg : Config) :
    Except String (Function × List (List String)) :=
  ptrsAsArraysPhase (escapeAndRenameArgTypes (applyRenameRules (renameRet f cfg) cfg) cfg)

/-! Basic algebra of the modelled output stream. -/

@[simp] theorem SW.write_out (sw : SW) (s : String) : (sw.write s).out = sw.out ++ s := rfl

@[simp] theorem SW.write_spaces (sw : SW) (s : String) : (sw.write s).spaces = sw.spaces := rfl

theorem SW.write_write (sw : SW) (a b : String) :
    (sw.write a).write b = sw.write (a ++ b) := by
  simp [SW.write, String.append_assoc]

@[simp] theorem SW.write_empty (sw : SW) : sw.write "" = sw := by
  cases sw
  simp [SW.write]

theorem SW.ite_write (p : Prop) [Decidable p] (sw : SW) (s : String) :
    (if p then sw.write s else sw) = sw.write (if p then s else "") := by
  by_cases h : p <;> simp [h]

/-! The base specifier fields under the CDecl helper operations. -/

@[simp] theorem pushDeclarator_type_qualifers (c : CDecl) (d : CDeclarator) :
    (c.pushDeclarator d).type_qualifers = c.type_qualifers := by
  cases c
  rfl

@[simp] theorem pushDeclarator_type_name (c : CDecl) (d : CDeclarator) :
    (c.pushDeclarator d).type_name = c.type_name := by
  cases c
  rfl

@[simp] theorem pushDeclarator_type_generic_args (c : CDecl) (d : CDeclarator) :
    (c.pushDeclarator d).type_generic_args = c.type_generic_args := by
  cases c
  rfl

@[simp] theorem pushDeclarator_declarators (c : CDecl) (d : CDeclarator) :
    (c.pushDeclarator d).declarators = c.declarators ++ [d] := by
  cases c
  rfl

@[simp] theorem setQualifer_declarators (c : CDecl) (q : String) :
    (c.setQualifer q).declarators = c.declarators := by
  cases c
  rfl

@[simp] theorem setName_declarators (c : CDecl) (n : String) :
    (c.setName n).declarators = c.declarators := by
  cases c
  rfl

@[simp] theorem setGenericArgs_declarators (c : CDecl) (g : List GenericArgument) :
    (c.setGenericArgs g).declarators = c.declarators := by
  cases c
  rfl

@[simp] theorem setCtype_declarators (c : CDecl) (ct : Option DeclarationType) :
    (c.setCtype ct).declarators = c.declarators := by
  cases c
  rfl

@[simp] theorem setQualifer_type_name (c : CDecl) (q : String) :
    (c.setQualifer q).type_name = c.type_name := by
  cases c
  rfl

@[simp] theorem setName_type_name (c : CDecl) (n : String) :
    (c.setName n).type_name = n := by
  cases c
  rfl

@[simp] theorem setGenericArgs_type_name (c : CDecl) (g : List GenericArgument) :
    (c.setGenericArgs g).type_name = c.type_name := by
  cases c
  rfl

@[simp] theorem setCtype_type_name (c : CDecl) (ct : Option DeclarationType) :
    (c.setCtype ct).type_name = c.type_name := by
  cases c
  rfl

/-! The text emitted by the left pass, in closed form. -/

/-- The text one left-pass step appends to the stream. -/
def leftStepText (cfg : Config) (d : CDeclarator) (next_is_pointer : Bool) : String :=
  match d with
  | .Ptr is_const is_nullable is_ref =>
    (if is_ref then "&" else "*") ++ (if is_const then "const " else "")
      ++ (if cfg.language ≠ Language.Cython then
            if !is_nullable && !is_ref then
              match cfg.pointer.non_null_attribute with
              | some attr => attr ++ " "
              | Option.none => ""
            else if is_nullable then
              match cfg.pointer.nullable_attribute with
              | some attr => attr ++ " "
              | Option.none => ""
            else ""
          else "")
  | .Array _ => if next_is_pointer then "(" else ""
  | .Func _ _ _ => if next_is_pointer then "(" else ""

theorem leftStep_eq_write (cfg : Config) (d : CDeclarator) (next : Bool) (sw : SW) :
    leftStep cfg d next sw = sw.write (leftStepText cfg d next) := by
  match d with
  | .Ptr is_const is_nullable is_ref =>
    simp only [leftStep, leftStepText]
    by_cases h1 : cfg.language ≠ Language.Cython <;>
      cases is_const <;> cases is_nullable <;> cases is_ref <;>
        simp [h1, SW.write_write, SW.ite_write] <;>
          cases cfg.pointer.non_null_attribute <;>
            cases cfg.pointer.nullable_attribute <;>
              simp [SW.write_write]
  | .Array len =>
    simp [leftStep, leftStepText, SW.ite_write]
  | .Func args layout nr =>
    simp [leftStep, leftStepText, SW.ite_write]

/-- The text of a left-pass run over a declarator list whose (reversed)
traversal is followed by a declarator with the given is_ptr flag; the peek
inside the list takes priority. -/
def leftPassTextW (cfg : Config) (trail : Bool) : List CDeclarator → String
  | [] => ""
  | d :: rest =>
    leftStepText cfg d (match rest with | [] => trail | r :: _ => r.is_ptr)
      ++ leftPassTextW cfg trail rest

/-- The text of a full left-pass run. -/
def leftPassText (cfg : Config) (ds : List CDeclarator) : String :=
  leftPassTextW cfg false ds

theorem leftPass_eq_write (cfg : Config) (ds : List CDeclarator) (sw : SW) :
    leftPass cfg ds sw = sw.write (leftPassText cfg ds) := by
  induction ds generalizing sw with
  | nil => simp [leftPass, leftPassText, leftPassTextW]
  | cons d rest ih =>
    have hpeek : (match rest with | [] => false | r :: _ => r.is_ptr) = nextIsPtr rest := by
      cases rest <;> rfl
    simp only [leftPass, leftPassText, leftPassTextW, hpeek]
    rw [leftStep_eq_write, ih, SW.write_write]
    rfl

theorem peekAppend (rest ys : List CDeclarator) (trail : Bool) :
    (match rest ++ ys with | [] => trail | r :: _ => r.is_ptr)
      = (match rest with
         | [] => (match ys with | [] => trail | r :: _ => r.is_ptr)
         | r :: _ => r.is_ptr) := by
  cases rest <;> cases ys <;> rfl

theorem leftPassTextW_append (cfg : Config) (xs ys : List CDeclarator) (trail : Bool) :
    leftPassTextW cfg trail (xs ++ ys) =
      leftPassTextW cfg (match ys with | [] => trail | r :: _ => r.is_ptr) xs
        ++ leftPassTextW cfg trail ys := by
  induction xs with
  | nil => cases ys <;> simp [leftPassTextW]
  | cons d rest ih =>
    simp only [List.cons_append, List.append_eq, leftPassTextW, peekAppend, ih,
      String.append_assoc]

@[simp] theorem SW.pushSetSpaces_out (sw : SW) (k : Nat) : (sw.pushSetSpaces k).out = sw.out := rfl

@[simp] theorem SW.popTab_out (sw : SW) : sw.popTab.out = sw.out := rfl

theorem SW.newLine_out (sw : SW) :
    sw.newLine.out = sw.out ++ ("\n" ++ String.mk (List.replicate (sw.spaces.headD 0) ' ')) := rfl

/-- The specifier text emitted at the top of CDecl::write, in closed form. -/
def specText (cfg : Config) (q n : String) (g : List GenericArgument)
    (ct : Option DeclarationType) : String :=
  (if q.isEmpty then "" else q ++ " ")
    ++ (if cfg.language ≠ Language.Cython then
          match ct with
          | some c2 => c2.to_str ++ " "
          | Option.none => ""
        else "")
    ++ n
    ++ (if g.isEmpty then ""
        else "<" ++ String.intercalate ", " (renderGenericListText g) ++ ">")

/-- The identifier text, empty when absent. -/
def identText : Option String → String
  | some i => i
  | Option.none => ""

/-- CDecl::write in closed prefix form: everything before the right pass is
one append to the stream. -/
theorem CDecl.write_unfold (q n : String) (g : List GenericArgument)
    (ds : List CDeclarator) (ct : Option DeclarationType) (dep : Option String)
    (sw : SW) (ident : Option String) (cfg : Config) :
    CDecl.write (.mk q n g ds ct dep) sw ident cfg =
      rightPass cfg ds false
        (sw.write (specText cfg q n g ct ++ (if ident.isSome then " " else "")
          ++ leftPassText cfg ds.reverse ++ identText ident)) := by
  simp only [CDecl.write.eq_def, leftPass_eq_write]
  by_cases hq : q.isEmpty <;> by_cases hl : cfg.language = Language.Cython <;>
    cases ct <;> by_cases hg : g.isEmpty <;> cases ident <;>
      simp [hq, hl, hg, SW.write_write, specText, identText, String.append_assoc]

/-- sw2 extends sw1: the later stream state only appends output text. -/
def SW.Ext (x y : SW) : Prop := ∃ s, y.out = x.out ++ s

theorem SW.Ext.refl (x : SW) : x.Ext x := ⟨"", by simp⟩

theorem SW.Ext.trans {x y z : SW} (h1 : x.Ext y) (h2 : y.Ext z) : x.Ext z := by
  obtain ⟨a, ha⟩ := h1
  obtain ⟨b, hb⟩ := h2
  exact ⟨a ++ b, by rw [hb, ha, String.append_assoc]⟩

theorem SW.Ext.write (x : SW) (s : String) : x.Ext (x.write s) := ⟨s, rfl⟩

theorem SW.Ext.write_right {x y : SW} (s : String) (h : x.Ext y) : x.Ext (y.write s) :=
  h.trans (SW.Ext.write y s)

theorem SW.Ext.ite_right (p : Prop) [Decidable p] {x y z : SW}
    (h1 : x.Ext y) (h2 : x.Ext z) : x.Ext (if p then y else z) := by
  by_cases h : p <;> simp only [h, if_true, if_false] <;> assumption

theorem SW.Ext.newLine_right {x y : SW} (h : x.Ext y) : x.Ext y.newLine :=
  h.trans ⟨_, SW.newLine_out y⟩

theorem SW.Ext.push_right {x y : SW} (k : Nat) (h : x.Ext y) : x.Ext (y.pushSetSpaces k) := by
  obtain ⟨a, ha⟩ := h
  exact ⟨a, by simpa using ha⟩

theorem SW.Ext.pop_right {x y : SW} (h : x.Ext y) : x.Ext y.popTab := by
  obtain ⟨a, ha⟩ := h
  exact ⟨a, by simpa using ha⟩

mutual
theorem write_out_mono (c : CDecl) (sw : SW) (ident : Option String) (cfg : Config) :
    sw.Ext (c.write sw ident cfg) := by
  match c with
  | .mk q n g ds ct dep =>
    rw [CDecl.write_unfold]
    exact (SW.Ext.write sw _).trans (rightPass_out_mono cfg ds false _)
termination_by sizeOf c * 8

theorem rightPass_out_mono (cfg : Config) (ds : List CDeclarator) (lwp : Bool) (sw : SW) :
    sw.Ext (rightPass cfg ds lwp sw) := by
  match ds with
  | [] =>
    rw [rightPass]
    exact SW.Ext.refl sw
  | .Ptr a b c :: rest =>
    rw [rightPass]
    exact rightPass_out_mono cfg rest true sw
  | .Array len :: rest =>
    rw [rightPass]
    refine SW.Ext.trans ?_ (rightPass_out_mono cfg rest false _)
    exact SW.Ext.write_right _ (SW.Ext.ite_right _ (SW.Ext.write sw _) (SW.Ext.refl sw))
  | .Func args layout nr :: rest =>
    rw [rightPass]
    refine SW.Ext.trans ?_ (rightPass_out_mono cfg rest true _)
    have h3 : sw.Ext (if args.isEmpty ∧ cfg.language = Language.C
        then ((if lwp then sw.write ")" else sw).write "(").write "void"
        else (if lwp then sw.write ")" else sw).write "(") := by
      refine SW.Ext.ite_right _ ?_ ?_ <;>
        refine SW.Ext.write_right _ ?_ <;>
          try refine SW.Ext.write_right _ ?_
      all_goals exact SW.Ext.ite_right _ (SW.Ext.write sw _) (SW.Ext.refl sw)
    have h4 := h3.trans (writeFuncArguments_out_mono layout args _ cfg)
    refine SW.Ext.ite_right _ ?_ (h4.write_right _)
    cases cfg.function.no_return with
    | some attr => exact (h4.write_right _).write_right _
    | none => exact h4.write_right _
termination_by sizeOf ds * 8 + 6

theorem writeFuncArguments_out_mono (layout : Layout) (args : List (Option String × CDecl))
    (sw : SW) (cfg : Config) :
    sw.Ext (writeFuncArguments layout args sw cfg) := by
  match layout with
  | .Vertical =>
    rw [writeFuncArguments]
    exact writeVertical_out_mono args sw cfg
  | .Horizontal =>
    rw [writeFuncArguments]
    exact writeHorizontal_out_mono args sw cfg
  | .Auto =>
    rw [writeFuncArguments]
    exact SW.Ext.ite_right _ (writeHorizontal_out_mono args sw cfg)
      (writeVertical_out_mono args sw cfg)
termination_by sizeOf args * 8 + 5

theorem writeHorizontal_out_mono (args : List (Option String × CDecl)) (sw : SW) (cfg : Config) :
    sw.Ext (writeHorizontal args sw cfg) := by
  rw [writeHorizontal]
  exact writeHorizontalFrom_out_mono true args sw cfg
termination_by sizeOf args * 8 + 4

theorem writeHorizontalFrom_out_mono (first : Bool) (args : List (Option String × CDecl))
    (sw : SW) (cfg : Config) :
    sw.Ext (writeHorizontalFrom first args sw cfg) := by
  match args with
  | [] =>
    rw [writeHorizontalFrom]
    exact SW.Ext.refl sw
  | (nm, t) :: rest =>
    rw [writeHorizontalFrom]
    refine SW.Ext.trans ?_ (writeHorizontalFrom_out_mono false rest _ cfg)
    refine SW.Ext.trans ?_ (write_out_mono t _ nm cfg)
    exact SW.Ext.ite_right _ (SW.Ext.refl sw) (SW.Ext.write sw _)
termination_by sizeOf args * 8 + 3

theorem writeVertical_out_mono (args : List (Option String × CDecl)) (sw : SW) (cfg : Config) :
    sw.Ext (writeVertical args sw cfg) := by
  rw [writeVertical]
  refine SW.Ext.pop_right ?_
  refine SW.Ext.trans ?_ (writeVerticalFrom_out_mono true args _ cfg)
  exact SW.Ext.push_right _ (SW.Ext.refl sw)
termination_by sizeOf args * 8 + 4

theorem writeVerticalFrom_out_mono (first : Bool) (args : List (Option String × CDecl))
    (sw : SW) (cfg : Config) :
    sw.Ext (writeVerticalFrom first args sw cfg) := by
  match args with
  | [] =>
    rw [writeVerticalFrom]
    exact SW.Ext.refl sw
  | (nm, t) :: rest =>
    rw [writeVerticalFrom]
    refine SW.Ext.trans ?_ (writeVerticalFrom_out_mono false rest _ cfg)
    refine SW.Ext.trans ?_ (write_out_mono t _ nm cfg)
    exact SW.Ext.ite_right _ (SW.Ext.refl sw) (SW.Ext.newLine_right (SW.Ext.write sw _))
termination_by sizeOf args * 8 + 3
end

/-! The declarator list produced by the synthesizer, in closed form. -/

/-- The declarator operations build_type appends for a given type and entry
constness: one Ptr per pointer (carrying the entry constness), one Array
per array, and a Ptr-then-Func pair per function pointer. -/
def tyDecls (t : Ty) (ctx : Bool) (cfg : Config) : List CDeclarator :=
  match t with
  | .Primitive _ => []
  | .Path _ _ _ => []
  | .Ptr ty c nl r => .Ptr ctx nl r :: tyDecls ty c cfg
  | .Array ty len => .Array len :: tyDecls ty ctx cfg
  | .FuncPtr ret args nr =>
    .Ptr false true false :: .Func (CDecl.buildArgs args cfg) cfg.function.args nr
      :: tyDecls ret false cfg

/-- The base name set by build_type: the name of the unique Primitive/Path
leaf along the wrapper spine. -/
def tyLeafName (t : Ty) : String :=
  match t with
  | .Primitive p => p.to_repr_c
  | .Path n _ _ => n
  | .Ptr ty _ _ _ => tyLeafName ty
  | .Array ty _ => tyLeafName ty
  | .FuncPtr ret _ _ => tyLeafName ret

theorem buildType_declarators : ∀ (t : Ty) (c : CDecl) (ctx : Bool) (cfg : Config),
    (c.buildType t ctx cfg).declarators = c.declarators ++ tyDecls t ctx cfg
  | .Primitive p, c, ctx, cfg => by
    cases ctx <;> simp [CDecl.buildType, tyDecls]
  | .Path n g ct2, c, ctx, cfg => by
    cases ctx <;> simp [CDecl.buildType, tyDecls]
  | .Ptr ty cc nl r, c, ctx, cfg => by
    have ih := buildType_declarators ty (c.pushDeclarator (.Ptr ctx nl r)) cc cfg
    simp [CDecl.buildType, tyDecls, ih]
  | .Array ty len, c, ctx, cfg => by
    have ih := buildType_declarators ty (c.pushDeclarator (.Array len)) ctx cfg
    simp [CDecl.buildType, tyDecls, ih]
  | .FuncPtr ret args nr, c, ctx, cfg => by
    have ih := buildType_declarators ret
      ((c.pushDeclarator (.Ptr false true false)).pushDeclarator
        (.Func (CDecl.buildArgs args cfg) cfg.function.args nr)) false cfg
    simp [CDecl.buildType, tyDecls, ih]

theorem buildType_type_name : ∀ (t : Ty) (c : CDecl) (ctx : Bool) (cfg : Config),
    (c.buildType t ctx cfg).type_name = tyLeafName t
  | .Primitive p, c, ctx, cfg => by
    cases ctx <;> simp [CDecl.buildType, tyLeafName]
  | .Path n g ct2, c, ctx, cfg => by
    cases ctx <;> simp [CDecl.buildType, tyLeafName]
  | .Ptr ty cc nl r, c, ctx, cfg => by
    have ih := buildType_type_name ty (c.pushDeclarator (.Ptr ctx nl r)) cc cfg
    simp [CDecl.buildType, tyLeafName, ih]
  | .Array ty len, c, ctx, cfg => by
    have ih := buildType_type_name ty (c.pushDeclarator (.Array len)) ctx cfg
    simp [CDecl.buildType, tyLeafName, ih]
  | .FuncPtr ret args nr, c, ctx, cfg => by
    have ih := buildType_type_name ret
      ((c.pushDeclarator (.Ptr false true false)).pushDeclarator
        (.Func (CDecl.buildArgs args cfg) cfg.function.args nr)) false cfg
    simp [CDecl.buildType, tyLeafName, ih]

theorem fromType_declarators (t : Ty) (cfg : Config) :
    (CDecl.fromType t cfg).declarators = tyDecls t false cfg := by
  rw [CDecl.fromType]
  rw [buildType_declarators]
  simp [CDecl.new, CDecl.declarators]

/-! The internal assertions of build_type never fire from a fresh CDecl. -/

@[simp] theorem empty_string_isEmpty : "".isEmpty = true := rfl

mutual
theorem buildTypeChecked_ok (t : Ty) (c : CDecl) (k : Bool) (cfg : Config)
    (h1 : c.type_qualifers = "") (h2 : c.type_name = "") (h3 : c.type_generic_args = []) :
    CDecl.buildTypeChecked c t k cfg = .ok (CDecl.buildType c t k cfg) := by
  match t with
  | .Path n g ct2 =>
    cases c with
    | mk q nm ga ds ct dep =>
      simp only [CDecl.type_qualifers] at h1
      simp only [CDecl.type_name] at h2
      simp only [CDecl.type_generic_args] at h3
      subst h1
      subst h2
      subst h3
      cases k <;>
        simp [CDecl.buildTypeChecked, CDecl.buildType, CDecl.setQualifer, CDecl.setName,
          CDecl.setGenericArgs, CDecl.setCtype, CDecl.type_name, CDecl.type_generic_args,
          CDecl.type_qualifers, pure, Except.pure, bind, Except.bind]
  | .Primitive p =>
    cases c with
    | mk q nm ga ds ct dep =>
      simp only [CDecl.type_qualifers] at h1
      simp only [CDecl.type_name] at h2
      subst h1
      subst h2
      cases k <;>
        simp [CDecl.buildTypeChecked, CDecl.buildType, CDecl.setQualifer, CDecl.setName,
          CDecl.type_name, CDecl.type_qualifers, pure, Except.pure, bind, Except.bind]
  | .Ptr ty cc nl r =>
    have ih := buildTypeChecked_ok ty (c.pushDeclarator (.Ptr k nl r)) cc cfg
      (by simp [h1]) (by simp [h2]) (by simp [h3])
    simp [CDecl.buildTypeChecked, CDecl.buildType, ih]
  | .Array ty len =>
    have ih := buildTypeChecked_ok ty (c.pushDeclarator (.Array len)) k cfg
      (by simp [h1]) (by simp [h2]) (by simp [h3])
    simp [CDecl.buildTypeChecked, CDecl.buildType, ih]
  | .FuncPtr ret args nr =>
    have iha := buildArgsChecked_ok args cfg
    have ih := buildTypeChecked_ok ret
      ((c.pushDeclarator (.Ptr false true false)).pushDeclarator
        (.Func (CDecl.buildArgs args cfg) cfg.function.args nr)) false cfg
      (by simp [h1]) (by simp [h2]) (by simp [h3])
    simp [CDecl.buildTypeChecked, CDecl.buildType, iha, ih, bind, Except.bind]
termination_by sizeOf t * 2

theorem buildArgsChecked_ok (args : List (Option String × Ty)) (cfg : Config) :
    CDecl.buildArgsChecked args cfg = .ok (CDecl.buildArgs args cfg) := by
  match args with
  | [] => simp [CDecl.buildArgsChecked, CDecl.buildArgs, pure, Except.pure]
  | (n, ty) :: rest =>
    have ih1 := fromTypeChecked_ok ty cfg
    have ih2 := buildArgsChecked_ok rest cfg
    simp [CDecl.buildArgsChecked, CDecl.buildArgs, ih1, ih2, pure, Except.pure, bind,
      Except.bind]
termination_by sizeOf args * 2

theorem fromTypeChecked_ok (t : Ty) (cfg : Config) :
    CDecl.fromTypeChecked t cfg = .ok (CDecl.fromType t cfg) := by
  have h := buildTypeChecked_ok t CDecl.new false cfg rfl rfl rfl
  rw [CDecl.fromTypeChecked, CDecl.fromType]
  exact h
termination_by sizeOf t * 2 + 1
end

/-! Wrapper lists of pure pointer/array shape, for the synthesis-order
claim. -/

/-- One pointer or array wrapper. -/
inductive Wrapper where
  | WPtr (is_const : Bool) (is_nullable : Bool) (is_ref : Bool)
  | WArr (len : String)

/-- The type built by nesting the wrappers, outermost first, around a
base type. -/
def applyWrappers : List Wrapper → Ty → Ty
  | [], t => t
  | .WPtr c nl r :: ws, t => .Ptr (applyWrappers ws t) c nl r
  | .WArr len :: ws, t => .Array (applyWrappers ws t) len

/-- The claim-side declarator image of a wrapper list: one Ptr declarator
per pointer (carrying the enclosing constness context) and one Array
declarator with the literal length per array, in wrapper order. -/
def wrapperDecls : List Wrapper → Bool → List CDeclarator
  | [], _ => []
  | .WPtr c nl r :: ws, ctx => .Ptr ctx nl r :: wrapperDecls ws c
  | .WArr len :: ws, ctx => .Array len :: wrapperDecls ws ctx

theorem tyDecls_wrappers_prim (ws : List Wrapper) (p : PrimitiveType) (ctx : Bool)
    (cfg : Config) :
    tyDecls (applyWrappers ws (.Primitive p)) ctx cfg = wrapperDecls ws ctx := by
  induction ws generalizing ctx with
  | nil => simp [applyWrappers, tyDecls, wrapperDecls]
  | cons w ws ih => cases w <;> simp [applyWrappers, tyDecls, wrapperDecls, ih]

theorem wrapperDecls_length (ws : List Wrapper) (ctx : Bool) :
    (wrapperDecls ws ctx).length = ws.length := by
  induction ws generalizing ctx with
  | nil => rfl
  | cons w ws ih => cases w <;> simp [wrapperDecls, ih]

theorem tyLeafName_wrappers (ws : List Wrapper) (base : Ty) :
    tyLeafName (applyWrappers ws base) = tyLeafName base := by
  induction ws with
  | nil => rfl
  | cons w ws ih => cases w <;> simp [applyWrappers, tyLeafName, ih]

/-! Claim theorems. -/

/-- C3: for every Type, building a CDecl from a fresh empty CDecl reaches
the Primitive/Path leaf exactly once, so the internal emptiness assertions
of build_type never fail: the assert-faithful synthesizer always returns
ok, with the same CDecl the assertion-free synthesizer produces. -/
theorem c3_fromType_assertions_never_fail (t : Ty) (cfg : Config) :
    CDecl.fromTypeChecked t cfg = .ok (CDecl.fromType t cfg) :=
  fromTypeChecked_ok t cfg

/-- C4: for a type built purely from nested Ptr/Array wrappers around a
primitive, from_type produces exactly one declarator per wrapper, in the
wrappers' outer-to-inner order (a Ptr declarator per Ptr, an Array
declarator with the literal length text per Array), and sets the base name
from the primitive. -/
theorem c4_wrapper_order_count_preserved (ws : List Wrapper) (p : String) (cfg : Config) :
    (CDecl.fromType (applyWrappers ws (.Primitive (.Named p))) cfg).declarators
        = wrapperDecls ws false
    ∧ (CDecl.fromType (applyWrappers ws (.Primitive (.Named p))) cfg).declarators.length
        = ws.length
    ∧ (CDecl.fromType (applyWrappers ws (.Primitive (.Named p))) cfg).type_name = p := by
  refine ⟨?_, ?_, ?_⟩
  · rw [fromType_declarators, tyDecls_wrappers_prim]
  · rw [fromType_declarators, tyDecls_wrappers_prim, wrapperDecls_length]
  · rw [CDecl.fromType, buildType_type_name, tyLeafName_wrappers]
    rfl

/-- C2: rendering an argument list with Auto layout commits the horizontal
rendering exactly when it stays within the configured line_length, and
otherwise equals the vertical rendering applied to the unchanged stream, so
no partial horizontal output survives a rejected probe. -/
theorem c2_auto_layout_refines_horizontal_or_vertical
    (args : List (Option String × CDecl)) (sw : SW) (cfg : Config) :
    writeFuncArguments .Auto args sw cfg =
      if (writeFuncArguments .Horizontal args sw cfg).maxLineLen ≤ cfg.line_length
      then writeFuncArguments .Horizontal args sw cfg
      else writeFuncArguments .Vertical args sw cfg := by
  rw [writeFuncArguments, writeFuncArguments, writeFuncArguments]

/-- C9: a rendered Ptr declarator emits its star or ampersand and constness
and then exactly one nullability attribute, selected by the nullability
flag: the configured non-null attribute for a non-nullable non-reference
pointer, the configured nullable attribute for a nullable pointer, and none
at all for reference-flavoured pointers or in the Cython dialect. -/
theorem c9_ptr_nullability_attributes (cfg : Config) (pc pn pr next : Bool) (sw : SW) :
    leftStep cfg (.Ptr pc pn pr) next sw =
      sw.write ((if pr then "&" else "*") ++ (if pc then "const " else "")
        ++ (if cfg.language = Language.Cython then ""
            else if pn = false ∧ pr = false then
              (cfg.pointer.non_null_attribute.map (fun a => a ++ " ")).getD ""
            else if pn = true then
              (cfg.pointer.nullable_attribute.map (fun a => a ++ " ")).getD ""
            else "")) := by
  rw [leftStep_eq_write]
  congr 1
  simp only [leftStepText]
  by_cases h : cfg.language = Language.Cython <;> cases pn <;> cases pr <;>
    cases cfg.pointer.non_null_attribute <;> cases cfg.pointer.nullable_attribute <;>
      simp [h]

theorem writeFuncArguments_nil (layout : Layout) (sw : SW) (cfg : Config) :
    writeFuncArguments layout [] sw cfg = sw := by
  have hh : writeHorizontal [] sw cfg = sw := by
    rw [writeHorizontal, writeHorizontalFrom]
  have hv : writeVertical [] sw cfg = sw := by
    cases sw with
    | mk o sp =>
      rw [writeVertical, writeVerticalFrom]
      simp [SW.pushSetSpaces, SW.popTab]
  cases layout <;> rw [writeFuncArguments] <;> simp [hh, hv]

/-- C10: a Func declarator with an empty argument list renders its
parameter list as (void) exactly when the configured language is C, and as
() for the other two languages — for every layout, every never_return flag
(whose only further effect is the configured no-return attribute appended
after the parameter list, outside Cython) and every pending-pointer
state. -/
theorem c10_empty_args_void_only_in_c (cfg : Config) (layout : Layout) (nr : Bool)
    (lwp : Bool) (sw : SW) (rest : List CDeclarator) :
    rightPass cfg (.Func [] layout nr :: rest) lwp sw =
      rightPass cfg rest true
        (((if lwp then sw.write ")" else sw).write
            (if cfg.language = Language.C then "(void)" else "()")).write
          (if nr ∧ cfg.language ≠ Language.Cython then
            (cfg.function.no_return.map (fun a => " " ++ a)).getD ""
          else "")) := by
  have h1 : ("(" ++ "void" ++ ")" : String) = "(void)" := rfl
  have h2 : ("(" ++ ")" : String) = "()" := rfl
  obtain ⟨lang, fcfg, pcfg, ll, tyR⟩ := cfg
  rw [rightPass]
  cases lang <;> cases nr <;> cases ho : fcfg.no_return <;>
    simp [writeFuncArguments_nil, SW.write_write, h1, h2, ho, String.append_assoc]

/-- C8: loading a receiver parameter yields an argument named self with no
array length; with a by-reference receiver the type is wrapped in Ptr with
constness the negated mutability and nullable and is_ref both false, and
with a by-value receiver the type is used as-is; the default self type,
after the loader's Self substitution, is the enclosing type's path. -/
theorem c8_receiver_argument (r : Receiver) (p : Path) :
    ((receiverArgument r).replaceSelf p).name = some "self"
    ∧ ((receiverArgument r).replaceSelf p).array_length = Option.none
    ∧ ((receiverArgument r).replaceSelf p).ty =
        (if r.reference then
          Ty.Ptr (replaceSelfWith p (if r.colon_token then r.tyLoaded.getD selfPath else selfPath))
            (!r.mutability) false false
        else
          replaceSelfWith p (if r.colon_token then r.tyLoaded.getD selfPath else selfPath))
    ∧ replaceSelfWith p selfPath = Ty.Path p.name [] Option.none := by
  refine ⟨rfl, rfl, ?_, ?_⟩
  · by_cases hr : r.reference = true
    · simp [FunctionArgument.replaceSelf, receiverArgument, gen_self_type, hr,
        replaceSelfWith]
    · simp only [Bool.not_eq_true] at hr
      simp [FunctionArgument.replaceSelf, receiverArgument, gen_self_type, hr]
  · simp [selfPath, replaceSelfWith, replaceSelfWithGenerics]

/-- C5: whenever the effective rename rule is not None, the rename block
rebuilds every argument with the renamed name, the same type and a cleared
array-length override, and rename_for_config runs this block before the
keyword-escape pass and before the ptrs-as-arrays pass. -/
theorem c5_rename_clears_array_lengths (f : Function) (cfg : Config) (r : RenameRule)
    (h : (f.annotations.rename_all.getD cfg.function.rename_args).not_none = some r) :
    applyRenameRules f cfg =
        { f with args := f.args.map (fun arg =>
            { name := arg.name.map (fun n => r.applyRule n), ty := arg.ty,
              array_length := Option.none }) }
    ∧ Function.rename_for_config f cfg =
        ptrsAsArraysPhase
          (escapeAndRenameArgTypes (applyRenameRules (renameRet f cfg) cfg) cfg) := by
  refine ⟨?_, rfl⟩
  simp only [applyRenameRules]
  rw [h]

/-- A concrete configuration used by the concrete-instance theorems: C
language, no attributes, no global rename rule, identity type renaming. -/
def cfgW : Config :=
  { language := Language.C,
    function := { args := Layout.Auto, rename_args := RenameRule.none,
                  no_return := Option.none },
    pointer := { non_null_attribute := Option.none, nullable_attribute := Option.none },
    line_length := 100,
    tyRename := id }

/-- A concrete function with an uppercasing per-function rename rule, one
named pointer argument carrying an array-length override and one unnamed
argument. -/
def fC5 : Function :=
  { path := ⟨"foo"⟩,
    self_type_path := Option.none,
    ret := .Primitive (.Named "int"),
    args := [⟨some "a", .Ptr (.Primitive (.Named "int")) false false false, some "7"⟩,
             ⟨Option.none, .Primitive (.Named "int"), Option.none⟩],
    extern_decl := false,
    cfg_guard := Option.none,
    annotations := { rename_all := some (.rule String.toUpper),
                     ptrs_as_arrays := Option.none, deprecated := Option.none },
    documentation := [],
    never_return := false }

theorem c5_rename_clears_array_lengths_witness :
    applyRenameRules fC5 cfgW =
        { fC5 with args := fC5.args.map (fun arg =>
            { name := arg.name.map (fun n => (RenameRule.rule String.toUpper).applyRule n),
              ty := arg.ty, array_length := Option.none }) }
    ∧ Function.rename_for_config fC5 cfgW =
        ptrsAsArraysPhase
          (escapeAndRenameArgTypes (applyRenameRules (renameRet fC5 cfgW) cfgW) cfgW) :=
  c5_rename_clears_array_lengths fC5 cfgW (.rule String.toUpper) rfl

/-- A concrete function whose pointer argument a carries an array-length
override and is not mentioned by the single ptrs-as-arrays pair (b; 16). -/
def fC6 : Function :=
  { path := ⟨"foo"⟩,
    self_type_path := Option.none,
    ret := .Primitive (.Named "int"),
    args := [⟨some "a", .Ptr (.Primitive (.Named "int")) false false false, some "7"⟩],
    extern_decl := false,
    cfg_guard := Option.none,
    annotations := { rename_all := Option.none,
                     ptrs_as_arrays := some ["(b; 16)"], deprecated := Option.none },
    documentation := [],
    never_return := false }

/-- C6 counterexample: the pointer argument a is not mentioned by the only
pair (b; 16), yet rename_for_config clears its array-length override from
some 7 to None, because the assignment loop writes the (absent) map lookup
into every named pointer argument.  The claim's "an argument not mentioned
by any pair is unaffected" therefore fails on this input. -/
theorem c6_counterexample :
    fC6.args.map (fun a => a.array_length) = [some "7"]
    ∧ Function.rename_for_config fC6 cfgW =
        .ok ({ fC6 with
                args := [⟨some "a", .Ptr (.Primitive (.Named "int")) false false false,
                          Option.none⟩] }, []) := by
  constructor
  · rfl
  · rfl

/-- C6 (amended): an entry of at least two characters is parsed by
stripping its first and last characters, splitting on semicolons and
trimming; when this does not give exactly two parts the entry is recorded
as a warning and skipped without failing, and otherwise its pair is added
to the map; the assignment loop then gives every named pointer-typed
argument the map lookup for its name as its new array length (None when its
name is absent from the map) and leaves unnamed or non-pointer arguments
unchanged; a function without the annotation is returned unchanged with no
warnings.  (Entries shorter than two characters make the Rust byte-slice
panic, so they are outside the warn-and-skip path.) -/
theorem c6_ptrs_as_arrays_parse_and_assign :
    (∀ (m : List (String × String)) (ws : List (List String)) (s : String)
        (rest : List String), 2 ≤ s.length → (entryParts s).length ≠ 2 →
        parsePtrsEntries m ws (s :: rest) = parsePtrsEntries m (ws ++ [entryParts s]) rest)
    ∧ (∀ (m : List (String × String)) (ws : List (List String)) (s : String)
        (rest : List String), 2 ≤ s.length → (entryParts s).length = 2 →
        parsePtrsEntries m ws (s :: rest)
          = parsePtrsEntries
              (mapInsert m ((entryParts s).getD 0 "") ((entryParts s).getD 1 "")) ws rest)
    ∧ (∀ (f : Function) (m : List (String × String)),
        (assignPtrLengths f m).args = f.args.map (fun arg =>
          match arg.ty, arg.name with
          | .Ptr _ _ _ _, some n => { arg with array_length := List.lookup n m }
          | _, _ => arg))
    ∧ (∀ f : Function, f.annotations.ptrs_as_arrays = Option.none →
        ptrsAsArraysPhase f = .ok (f, [])) := by
  refine ⟨?_, ?_, ?_, ?_⟩
  · intro m ws s rest hlen hparts
    rw [parsePtrsEntries]
    rw [if_neg (by omega), if_neg hparts]
  · intro m ws s rest hlen hparts
    rw [parsePtrsEntries]
    rw [if_neg (by omega), if_pos hparts]
  · intro f m
    simp only [assignPtrLengths]
    refine List.map_congr_left ?_
    intro a _
    cases a with
    | mk nm ty al => cases ty <;> cases nm <;> rfl
  · intro f h
    simp [ptrsAsArraysPhase, h]

theorem c6_ptrs_as_arrays_parse_and_assign_witness :
    parsePtrsEntries [] [] ["(x)"] = parsePtrsEntries [] ([] ++ [entryParts "(x)"]) []
    ∧ parsePtrsEntries [] [] ["(buf; 16)"]
        = parsePtrsEntries
            (mapInsert [] ((entryParts "(buf; 16)").getD 0 "")
              ((entryParts "(buf; 16)").getD 1 "")) [] [] :=
  ⟨c6_ptrs_as_arrays_parse_and_assign.1 [] [] "(x)" [] (by decide) (by decide),
   c6_ptrs_as_arrays_parse_and_assign.2.1 [] [] "(buf; 16)" [] (by decide) (by decide)⟩

/-- A concrete method on type Foo whose exported name bar does not start
with the type name and whose only argument is unnamed. -/
def fC7 : Function :=
  { path := ⟨"bar"⟩,
    self_type_path := some ⟨"Foo"⟩,
    ret := .Primitive (.Named "int"),
    args := [⟨Option.none, .Primitive (.Named "int"), Option.none⟩],
    extern_decl := false,
    cfg_guard := Option.none,
    annotations := { rename_all := Option.none, ptrs_as_arrays := Option.none,
                     deprecated := Option.none },
    documentation := [],
    never_return := false }

/-- C7 counterexample: the function has an unnamed argument, yet swift_name
returns some "bar" rather than None, because the mismatch between the type
name Foo and the function name bar takes the early-return path before
argument names are examined.  The claim's "returns None whenever any
argument is unnamed" therefore fails on this input. -/
theorem c7_counterexample :
    (∃ a, a ∈ fC7.args ∧ a.name = Option.none)
    ∧ Function.swift_name fC7 cfgW = some "bar" := by
  constructor
  · exact ⟨⟨Option.none, .Primitive (.Named "int"), Option.none⟩, by simp [fC7], rfl⟩
  · rfl

theorem swiftItemArgs_none (args : List FunctionArgument)
    (h : ∃ a ∈ args, a.name = Option.none) : swiftItemArgs args = Option.none := by
  induction args with
  | nil => simp at h
  | cons b bs ih =>
    obtain ⟨a, ha, hn⟩ := h
    rcases List.mem_cons.mp ha with rfl | hmem
    · simp [swiftItemArgs, hn]
    · have h2 := ih ⟨a, hmem, hn⟩
      cases hb : b.name <;> simp [swiftItemArgs, hb, h2]

theorem swiftItemArgs_names (args : List FunctionArgument) (names : List String)
    (h : args.map (fun a => a.name) = names.map some) :
    swiftItemArgs args = some (names.map (fun n => n ++ ":")) := by
  induction args generalizing names with
  | nil =>
    cases names with
    | nil => rfl
    | cons n ns => simp at h
  | cons b bs ih =>
    cases names with
    | nil => simp at h
    | cons n ns =>
      simp only [List.map_cons, List.cons.injEq] at h
      simp [swiftItemArgs, h.1, ih ns h.2]

theorem empty_str_append (s : String) : "" ++ s = s := by
  cases s
  rfl

/-- C7 (amended): swift_name returns None for Cython; for a method whose
function name does not start with its self type name it returns the path
string as-is, even when arguments are unnamed; on the remaining paths it
returns None exactly when some argument is unnamed, and otherwise the label
built from the (repeatedly) stripped type-name and underscore trimming with
the colon-terminated argument names appended in parentheses. -/
theorem c7_swift_name_characterization (f : Function) (cfg : Config) :
    (cfg.language = Language.Cython → f.swift_name cfg = Option.none)
    ∧ (cfg.language ≠ Language.Cython → ∀ tp, f.self_type_path = some tp →
        startsWithStr f.path.name tp.name = false → f.swift_name cfg = some f.path.name)
    ∧ (cfg.language ≠ Language.Cython → f.self_type_path = Option.none →
        (∃ a ∈ f.args, a.name = Option.none) → f.swift_name cfg = Option.none)
    ∧ (cfg.language ≠ Language.Cython → ∀ tp, f.self_type_path = some tp →
        startsWithStr f.path.name tp.name = true →
        (∃ a ∈ f.args, a.name = Option.none) → f.swift_name cfg = Option.none)
    ∧ (∀ (names : List String), cfg.language ≠ Language.Cython → f.self_type_path = Option.none →
        f.args.map (fun a => a.name) = names.map some →
        f.swift_name cfg = some
          (trimStartMatchesChar (trimStartMatchesStr f.path.name "") '_'
            ++ "(" ++ String.join (names.map (fun n => n ++ ":")) ++ ")"))
    ∧ (∀ (tp : Path) (names : List String), cfg.language ≠ Language.Cython →
        f.self_type_path = some tp →
        startsWithStr f.path.name tp.name = true →
        f.args.map (fun a => a.name) = names.map some →
        f.swift_name cfg = some
          (tp.name ++ "."
            ++ trimStartMatchesChar (trimStartMatchesStr f.path.name tp.name) '_'
            ++ "(" ++ String.join (names.map (fun n => n ++ ":")) ++ ")")) := by
  refine ⟨?_, ?_, ?_, ?_, ?_, ?_⟩
  · intro h
    simp [Function.swift_name, h]
  · intro hl tp htp hsw
    simp [Function.swift_name, hl, htp, hsw]
  · intro hl hsp hun
    simp [Function.swift_name, hl, hsp, swiftItemArgs_none f.args hun]
  · intro hl tp htp hsw hun
    simp [Function.swift_name, hl, htp, hsw, swiftItemArgs_none f.args hun]
  · intro names hl hsp hnames
    simp [Function.swift_name, hl, hsp, swiftItemArgs_names f.args names hnames,
      empty_str_append]
  · intro tp names hl htp hsw hnames
    simp [Function.swift_name, hl, htp, hsw, swiftItemArgs_names f.args names hnames,
      String.append_assoc]

theorem c7_swift_name_characterization_witness :
    Function.swift_name fC7 { cfgW with language := Language.Cython } = Option.none :=
  (c7_swift_name_characterization fC7 { cfgW with language := Language.Cython }).1 rfl

/-! Nested pointer chains around a function pointer, for the
parenthesization claim. -/

/-- Nested Ptr wrappers (is_const, is_nullable, is_ref), outermost first. -/
def ptrWraps : List (Bool × Bool × Bool) → Ty → Ty
  | [], t => t
  | (c, nl, r) :: ps, t => .Ptr (ptrWraps ps t) c nl r

/-- The Ptr declarators a pointer chain contributes, outermost first, each
carrying the enclosing constness context. -/
def ptrWrapDecls : List (Bool × Bool × Bool) → Bool → List CDeclarator
  | [], _ => []
  | (c, nl, r) :: ps, ctx => .Ptr ctx nl r :: ptrWrapDecls ps c

/-- The constness context left for the wrapped base type. -/
def lastPtrConst : List (Bool × Bool × Bool) → Bool → Bool
  | [], ctx => ctx
  | (c, _, _) :: ps, _ => lastPtrConst ps c

theorem tyDecls_ptrWraps (ps : List (Bool × Bool × Bool)) (base : Ty) (ctx : Bool)
    (cfg : Config) :
    tyDecls (ptrWraps ps base) ctx cfg
      = ptrWrapDecls ps ctx ++ tyDecls base (lastPtrConst ps ctx) cfg := by
  induction ps generalizing ctx with
  | nil => simp [ptrWraps, ptrWrapDecls, lastPtrConst]
  | cons w ps ih =>
    obtain ⟨c, nl, r⟩ := w
    simp [ptrWraps, ptrWrapDecls, lastPtrConst, tyDecls, ih]

theorem ite_bool_true {α : Sort _} (a b : α) : (if (true : Bool) = true then a else b) = a := rfl

theorem rightPass_skip_ptrChain (cfg : Config) (ps : List (Bool × Bool × Bool)) (ctx : Bool)
    (rest : List CDeclarator) (lwp : Bool) (sw : SW) :
    rightPass cfg (ptrWrapDecls ps ctx ++ rest) lwp sw
      = rightPass cfg rest (match ps with | [] => lwp | _ => true) sw := by
  induction ps generalizing ctx lwp with
  | nil => simp [ptrWrapDecls]
  | cons w ps ih =>
    obtain ⟨c, nl, r⟩ := w
    simp only [ptrWrapDecls, List.cons_append]
    rw [rightPass, ih]
    cases ps <;> rfl

theorem ite_write_generic (P : Prop) [Decidable P] (x : SW) (s : String) :
    ∃ w, (if P then x.write s else x) = x.write w := by
  by_cases h : P
  · exact ⟨s, by rw [if_pos h]⟩
  · exact ⟨"", by rw [if_neg h]; simp⟩

theorem paren_pair (X : String) : (")" : String) ++ ("(" ++ X) = ")(" ++ X := by
  rw [← String.append_assoc]
  rfl

theorem paren_star (X : String) : ("(" : String) ++ ("*" ++ X) = "(*" ++ X := by
  rw [← String.append_assoc]
  rfl

/-- The right pass over a Func declarator reached with a pending pointer
group: it closes the group and opens the parameter list, so the output
continues with the two adjacent parentheses and then only appends. -/
theorem rightPass_func_out (cfg : Config) (args2 : List (Option String × CDecl))
    (L : Layout) (nr : Bool) (rest : List CDeclarator) (sw : SW) :
    ∃ tl, (rightPass cfg (.Func args2 L nr :: rest) true sw).out
      = sw.out ++ ")(" ++ tl := by
  cases ho : cfg.function.no_return with
  | none =>
    rw [rightPass]
    simp only [ite_bool_true, if_true, ho, ite_self]
    obtain ⟨v, hv⟩ := ite_write_generic (args2.isEmpty ∧ cfg.language = Language.C)
      ((sw.write ")").write "(") "void"
    rw [hv]
    obtain ⟨s4, h4⟩ := writeFuncArguments_out_mono L args2
      (((sw.write ")").write "(").write v) cfg
    obtain ⟨s2, h2⟩ := rightPass_out_mono cfg rest true
      ((writeFuncArguments L args2 (((sw.write ")").write "(").write v) cfg).write ")")
    refine ⟨v ++ s4 ++ ")" ++ s2, ?_⟩
    rw [h2]
    simp only [SW.write_out]
    rw [h4]
    simp only [SW.write_out, String.append_assoc, paren_pair]
  | some attr =>
    rw [rightPass]
    simp only [ite_bool_true, if_true, ho]
    obtain ⟨v, hv⟩ := ite_write_generic (args2.isEmpty ∧ cfg.language = Language.C)
      ((sw.write ")").write "(") "void"
    rw [hv]
    obtain ⟨s4, h4⟩ := writeFuncArguments_out_mono L args2
      (((sw.write ")").write "(").write v) cfg
    obtain ⟨w2, hw2⟩ := ite_write_generic (nr ∧ cfg.language ≠ Language.Cython)
      ((writeFuncArguments L args2 (((sw.write ")").write "(").write v) cfg).write ")")
      (" " ++ attr)
    rw [hw2]
    obtain ⟨s2, h2⟩ := rightPass_out_mono cfg rest true
      (((writeFuncArguments L args2 (((sw.write ")").write "(").write v) cfg).write ")").write w2)
    refine ⟨v ++ s4 ++ ")" ++ w2 ++ s2, ?_⟩
    rw [h2]
    simp only [SW.write_out]
    rw [h4]
    simp only [SW.write_out, String.append_assoc, paren_pair]

/-- The text the synthesized function-pointer Ptr declarator (nullable,
non-const, non-reference) emits after its star. -/
def nullAttrText (cfg : Config) : String :=
  if cfg.language ≠ Language.Cython then
    match cfg.pointer.nullable_attribute with
    | some a => a ++ " "
    | Option.none => ""
  else ""

theorem leftStepText_synthPtr (cfg : Config) (x : Bool) :
    leftStepText cfg (.Ptr false true false) x = "*" ++ nullAttrText cfg := by
  simp [leftStepText, nullAttrText]

/-- C1: in the left pass, an Array or Func declarator emits an opening
parenthesis exactly when the peeked next-visited declarator is a pointer in
the sense of is_ptr, which holds exactly for Ptr and Func declarators; the
pass steps through the reversed list feeding each step that peek; and
consequently a FuncPtr nested inside at least one surrounding pointer
renders its identifier inside a star-opened parenthesis group that closes
immediately before the parameter-list suffix. -/
theorem c1_left_pass_parenthesization :
    (∀ (cfg : Config) (len : String) (next : Bool) (sw : SW),
        leftStep cfg (.Array len) next sw = if next then sw.write "(" else sw)
    ∧ (∀ (cfg : Config) (args : List (Option String × CDecl)) (layout : Layout)
        (nr : Bool) (next : Bool) (sw : SW),
        leftStep cfg (.Func args layout nr) next sw = if next then sw.write "(" else sw)
    ∧ (∀ a b c, (CDeclarator.Ptr a b c).is_ptr = true)
    ∧ (∀ (args : List (Option String × CDecl)) (layout : Layout) (nr : Bool),
        (CDeclarator.Func args layout nr).is_ptr = true)
    ∧ (∀ len, (CDeclarator.Array len).is_ptr = false)
    ∧ (∀ (cfg : Config) (d : CDeclarator) (rest : List CDeclarator) (sw : SW),
        leftPass cfg (d :: rest) sw
          = leftPass cfg rest (leftStep cfg d (nextIsPtr rest) sw))
    ∧ (∀ (w : Bool × Bool × Bool) (ps : List (Bool × Bool × Bool)) (ret : Ty)
        (args : List (Option String × Ty)) (nr : Bool) (cfg : Config) (sw : SW)
        (ident : String),
        ∃ a b tl,
          (write_field sw (ptrWraps (w :: ps) (.FuncPtr ret args nr)) ident cfg).out
            = sw.out ++ a ++ "(*" ++ b ++ ident ++ ")(" ++ tl) := by
  refine ⟨fun _ _ _ _ => rfl, fun _ _ _ _ _ _ => rfl, fun _ _ _ => rfl,
    fun _ _ _ => rfl, fun _ => rfl, fun _ _ _ _ => rfl, ?_⟩
  intro w ps ret args nr cfg sw ident
  obtain ⟨wc, wn, wr⟩ := w
  have hds := fromType_declarators (ptrWraps ((wc, wn, wr) :: ps) (.FuncPtr ret args nr)) cfg
  rcases hc : CDecl.fromType (ptrWraps ((wc, wn, wr) :: ps) (.FuncPtr ret args nr)) cfg
    with ⟨q, n, g, dsx, ct, dep⟩
  rw [hc] at hds
  simp only [CDecl.declarators] at hds
  have hdecl : tyDecls (ptrWraps ((wc, wn, wr) :: ps) (.FuncPtr ret args nr)) false cfg
      = ptrWrapDecls ((wc, wn, wr) :: ps) false
        ++ (.Ptr false true false
            :: .Func (CDecl.buildArgs args cfg) cfg.function.args nr
            :: tyDecls ret false cfg) := by
    rw [tyDecls_ptrWraps]
    simp [tyDecls]
  rw [hdecl] at hds
  subst hds
  rw [write_field, hc, CDecl.write_unfold, rightPass_skip_ptrChain, rightPass]
  obtain ⟨tl, htl⟩ := rightPass_func_out cfg (CDecl.buildArgs args cfg) cfg.function.args nr
    (tyDecls ret false cfg)
    (sw.write (specText cfg q n g ct ++ (if (some ident).isSome then " " else "")
      ++ leftPassText cfg
          ((ptrWrapDecls ((wc, wn, wr) :: ps) false
            ++ (.Ptr false true false
                :: .Func (CDecl.buildArgs args cfg) cfg.function.args nr
                :: tyDecls ret false cfg)).reverse)
      ++ identText (some ident)))
  refine ⟨specText cfg q n g ct ++ " "
      ++ leftPassTextW cfg true (tyDecls ret false cfg).reverse,
    nullAttrText cfg
      ++ leftPassTextW cfg false (ptrWrapDecls ((wc, wn, wr) :: ps) false).reverse,
    tl, ?_⟩
  rw [htl]
  have hlp : leftPassText cfg
      ((ptrWrapDecls ((wc, wn, wr) :: ps) false
        ++ (.Ptr false true false
            :: .Func (CDecl.buildArgs args cfg) cfg.function.args nr
            :: tyDecls ret false cfg)).reverse)
      = leftPassTextW cfg true (tyDecls ret false cfg).reverse
        ++ ("(" ++ ("*" ++ (nullAttrText cfg
            ++ leftPassTextW cfg false (ptrWrapDecls ((wc, wn, wr) :: ps) false).reverse))) := by
    rw [List.reverse_append, List.reverse_cons, List.reverse_cons]
    rw [show ((tyDecls ret false cfg).reverse
          ++ [CDeclarator.Func (CDecl.buildArgs args cfg) cfg.function.args nr])
          ++ [CDeclarator.Ptr false true false] =
        (tyDecls ret false cfg).reverse
          ++ (CDeclarator.Func (CDecl.buildArgs args cfg) cfg.function.args nr
              :: CDeclarator.Ptr false true false :: []) by simp]
    rw [show ((tyDecls ret false cfg).reverse
          ++ (CDeclarator.Func (CDecl.buildArgs args cfg) cfg.function.args nr
              :: CDeclarator.Ptr false true false :: []))
          ++ (ptrWrapDecls ((wc, wn, wr) :: ps) false).reverse =
        (tyDecls ret false cfg).reverse
          ++ (CDeclarator.Func (CDecl.buildArgs args cfg) cfg.function.args nr
              :: CDeclarator.Ptr false true false
              :: (ptrWrapDecls ((wc, wn, wr) :: ps) false).reverse) by simp]
    rw [leftPassText, leftPassTextW_append]
    simp only [leftPassTextW, leftStepText_synthPtr, CDeclarator.is_ptr]
    have hfn : leftStepText cfg
        (.Func (CDecl.buildArgs args cfg) cfg.function.args nr) true = "(" := rfl
    cases hrv : (ptrWrapDecls ((wc, wn, wr) :: ps) false).reverse <;>
      simp [hfn, String.append_assoc]
  rw [hlp]
  simp only [Option.isSome_some, if_true, identText, SW.write_out, String.append_assoc,
    paren_star]

end Cbindgen
